import Mathlib

/-
  Verification of the BSATSF marketplace settlement engine.

  Two marketplace variants are embedded from the Solidity sources:
  - namespace M : contracts/BSATSF_Marketplace.sol (two-token marketplace:
    listERC721 / listERC1155 / buyItem / cancelListing / getAllActiveListings,
    with a ReentrancyGuard on the listing and buying entry points).
  - namespace P : the ERC-721-only marketplace (list / cancel / purchase /
    getActiveListings) together with the BSATSF_ERC721 token contract
    (transferAsset / setTransferFee) that it settles through.

  Addresses, token ids and wei amounts are modelled as Nat (Solidity 0.8
  checked arithmetic reverts on overflow, so the successful executions the
  theorems describe compute in exact natural-number arithmetic).  Solidity
  mappings are association lists with mapping-default reads.  A reverting
  call is an `Except.error`; the committing wrappers `M.run` / `P.runOp`
  model the all-or-nothing transaction semantics: on error the pre-state is
  kept unchanged.
-/

set_option maxHeartbeats 1600000

/-- Mapping read: first binding of the key, if any. -/
def aget {κ α : Type} [DecidableEq κ] : List (κ × α) → κ → Option α
  | [], _ => none
  | p :: rest, k => if p.1 = k then some p.2 else aget rest k

/-- Mapping write: replace the first binding of the key, or append a new one. -/
def aset {κ α : Type} [DecidableEq κ] : List (κ × α) → κ → α → List (κ × α)
  | [], k, v => [(k, v)]
  | p :: rest, k, v => if p.1 = k then (k, v) :: rest else p :: aset rest k v

/-- Native-currency balance read (mapping default 0). -/
def bget (m : List (Nat × Nat)) (k : Nat) : Nat := (aget m k).getD 0

/-- Move `amt` wei from account `a` to account `b` (EVM value transfer). -/
def ethT (m : List (Nat × Nat)) (a b amt : Nat) : List (Nat × Nat) :=
  aset (aset m a (bget m a - amt)) b (bget (aset m a (bget m a - amt)) b + amt)

namespace M

/-- Distinguished account of the marketplace contract itself. -/
def marketAddr : Nat := 1

/-- Account of the immutable `erc721Contract` collection. -/
def erc721Addr : Nat := 2

/-- Account of the immutable `erc1155Contract` collection. -/
def erc1155Addr : Nat := 3

/-- The `Listing` struct of contracts/BSATSF_Marketplace.sol. -/
structure Listing where
  listingId : Nat
  seller : Nat
  tokenAddress : Nat
  tokenId : Nat
  quantity : Nat
  pricePerUnit : Nat
  isERC1155 : Bool
  active : Bool
deriving DecidableEq, Repr

/-- Mapping default: the all-zero `Listing` struct. -/
def Listing.zero : Listing :=
  { listingId := 0, seller := 0, tokenAddress := 0, tokenId := 0,
    quantity := 0, pricePerUnit := 0, isERC1155 := false, active := false }

/-- External collaborator state the marketplace touches: native-currency
balances, the ERC-721 collection (owners, per-token approvals, operator
approvals) and the ERC-1155 collection (balances, operator approvals). -/
structure Tokens where
  eth : List (Nat × Nat)
  owners721 : List (Nat × Nat)
  approved721 : List (Nat × Nat)
  operators721 : List ((Nat × Nat) × Bool)
  bal1155 : List ((Nat × Nat) × Nat)
  operators1155 : List ((Nat × Nat) × Bool)
deriving DecidableEq, Repr

/-- `IERC721.getApproved` (address 0 when unset). -/
def getApproved721 (t : Tokens) (tokenId : Nat) : Nat :=
  (aget t.approved721 tokenId).getD 0

/-- `IERC721.isApprovedForAll`. -/
def isOp721 (t : Tokens) (owner op : Nat) : Bool :=
  (aget t.operators721 (owner, op)).getD false

/-- `IERC1155.balanceOf`. -/
def bal1155Get (t : Tokens) (holder tokenId : Nat) : Nat :=
  (aget t.bal1155 (holder, tokenId)).getD 0

/-- `IERC1155.isApprovedForAll`. -/
def isOp1155 (t : Tokens) (owner op : Nat) : Bool :=
  (aget t.operators1155 (owner, op)).getD false

/-- Contract storage of BSATSF_Marketplace plus the collaborator state:
`_listingIdCounter`, the `listings` mapping, and the ReentrancyGuard flag. -/
structure MState where
  counter : Nat
  listings : List (Nat × Listing)
  locked : Bool
  tok : Tokens
deriving DecidableEq, Repr

/-- `listings[listingId]` with the Solidity mapping default. -/
def getL (s : MState) (id : Nat) : Listing :=
  (aget s.listings id).getD Listing.zero

/-- `listERC721(tokenId, price)`, `nonReentrant`, caller `c`. -/
def listERC721 (s : MState) (c tokenId price : Nat) : Except String MState :=
  if s.locked then .error "ReentrancyGuard" else
  if ¬ 0 < price then .error "Price must be over 0" else
  match aget s.tok.owners721 tokenId with
  | none => .error "ERC721 nonexistent token"
  | some ow =>
    if ¬ ow = c then .error "Not owner" else
    if ¬ (isOp721 s.tok c marketAddr = true ∨ getApproved721 s.tok tokenId = marketAddr) then
      .error "Marketplace not approved"
    else
      .ok { s with
            counter := s.counter + 1
            listings := aset s.listings (s.counter + 1)
              { listingId := s.counter + 1, seller := c, tokenAddress := erc721Addr,
                tokenId := tokenId, quantity := 1, pricePerUnit := price,
                isERC1155 := false, active := true } }

/-- `listERC1155(tokenId, quantity, pricePerUnit)`, `nonReentrant`, caller `c`. -/
def listERC1155 (s : MState) (c tokenId quantity pricePerUnit : Nat) : Except String MState :=
  if s.locked then .error "ReentrancyGuard" else
  if ¬ 0 < pricePerUnit then .error "Price must be over 0" else
  if ¬ 0 < quantity then .error "Quantity must be over 0" else
  if bal1155Get s.tok c tokenId < quantity then .error "Insufficient balance" else
  if ¬ isOp1155 s.tok c marketAddr = true then .error "Marketplace not approved" else
    .ok { s with
          counter := s.counter + 1
          listings := aset s.listings (s.counter + 1)
            { listingId := s.counter + 1, seller := c, tokenAddress := erc1155Addr,
              tokenId := tokenId, quantity := quantity, pricePerUnit := pricePerUnit,
              isERC1155 := true, active := true } }

/-- First part of `buyItem(listingId, quantityToBuy)` with `msg.value = v`,
caller `c`: the ReentrancyGuard entry, the funding of `msg.value`, the three
`require` checks, and the payment `payable(seller).transfer(price * qty)`.
The returned state is the one visible at the external asset-transfer call. -/
def buyItemP1 (s : MState) (c id qty v : Nat) : Except String MState :=
  if s.locked then .error "ReentrancyGuard" else
  if bget s.tok.eth c < v then .error "insufficient sender balance" else
  let s0 : MState := { s with
                       locked := true
                       tok := { s.tok with eth := ethT s.tok.eth c marketAddr v } }
  let l := getL s id
  if ¬ l.active = true then .error "Listing not active" else
  if ¬ (0 < qty ∧ qty ≤ l.quantity) then .error "Invalid quantity" else
  if v < l.pricePerUnit * qty then .error "Insufficient ETH sent" else
    .ok { s0 with tok := { s0.tok with
            eth := ethT s0.tok.eth marketAddr l.seller (l.pricePerUnit * qty) } }

/-- The external asset move of `buyItem`: `IERC1155.safeTransferFrom(seller,
buyer, tokenId, qty, "")` or `IERC721.safeTransferFrom(seller, buyer,
tokenId)`, both with the marketplace as `msg.sender`. -/
def marketTransferAsset (s : MState) (buyer id qty : Nat) : Except String MState :=
  let l := getL s id
  if l.isERC1155 then
    if ¬ (l.seller = marketAddr ∨ isOp1155 s.tok l.seller marketAddr = true) then
      .error "ERC1155 missing approval"
    else if buyer = 0 then .error "ERC1155 transfer to zero address" else
    if bal1155Get s.tok l.seller l.tokenId < qty then .error "ERC1155 insufficient balance" else
      .ok { s with tok := { s.tok with
        bal1155 :=
          aset (aset s.tok.bal1155 (l.seller, l.tokenId)
                  (bal1155Get s.tok l.seller l.tokenId - qty))
            (buyer, l.tokenId)
            ((aget (aset s.tok.bal1155 (l.seller, l.tokenId)
                      (bal1155Get s.tok l.seller l.tokenId - qty))
                (buyer, l.tokenId)).getD 0 + qty) } }
  else
    match aget s.tok.owners721 l.tokenId with
    | none => .error "ERC721 nonexistent token"
    | some ow =>
      if ¬ (marketAddr = ow ∨ getApproved721 s.tok l.tokenId = marketAddr ∨
            isOp721 s.tok ow marketAddr = true) then
        .error "ERC721 caller not approved"
      else if ¬ ow = l.seller then .error "ERC721 transfer from incorrect owner" else
      if buyer = 0 then .error "ERC721 transfer to zero address" else
        .ok { s with tok := { s.tok with
              owners721 := aset s.tok.owners721 l.tokenId buyer
              approved721 := aset s.tok.approved721 l.tokenId 0 } }

/-- Last part of `buyItem`: the listing-state update (quantity decrement and
possible deactivation), the excess-ETH refund, and the guard release. -/
def buyItemP2 (s : MState) (c id qty v : Nat) : MState :=
  let l := getL s id
  let q2 := l.quantity - qty
  let l2 : Listing := { l with quantity := q2, active := if q2 = 0 then false else l.active }
  let s1 : MState := { s with listings := aset s.listings id l2 }
  let total := l.pricePerUnit * qty
  let s2 : MState :=
    if total < v then
      { s1 with tok := { s1.tok with eth := ethT s1.tok.eth marketAddr c (v - total) } }
    else s1
  { s2 with locked := false }

/-- `buyItem(listingId, quantityToBuy)` with `msg.value = v`, caller `c`. -/
def buyItem (s : MState) (c id qty v : Nat) : Except String MState := do
  let s1 ← buyItemP1 s c id qty v
  let s2 ← marketTransferAsset s1 c id qty
  pure (buyItemP2 s2 c id qty v)

/-- `cancelListing(listingId)`, caller `c`. -/
def cancelListing (s : MState) (c id : Nat) : Except String MState :=
  let l := getL s id
  if ¬ l.seller = c then .error "Not seller" else
  if ¬ l.active = true then .error "Not active" else
    .ok { s with listings := aset s.listings id { l with active := false } }

/-- `getAllActiveListings()`: walk listing ids 1.._listingIdCounter and keep
the active ones, in id order. -/
def getAllActiveListings (s : MState) : List Listing :=
  (List.range' 1 s.counter).filterMap
    (fun i => if (getL s i).active = true then some (getL s i) else none)

/-- The marketplace operations a client can submit. -/
inductive MOp where
  | list721 (c tokenId price : Nat)
  | list1155 (c tokenId quantity pricePerUnit : Nat)
  | cancel (c id : Nat)
  | buy (c id qty v : Nat)
deriving DecidableEq, Repr

def applyOp (s : MState) : MOp → Except String MState
  | .list721 c tokenId price => listERC721 s c tokenId price
  | .list1155 c tokenId q ppu => listERC1155 s c tokenId q ppu
  | .cancel c id => cancelListing s c id
  | .buy c id qty v => buyItem s c id qty v

/-- Committing transaction semantics: a reverted call leaves state unchanged. -/
def run (s : MState) (op : MOp) : MState :=
  match applyOp s op with
  | .ok s2 => s2
  | .error _ => s

def runAll (s : MState) (ops : List MOp) : MState := ops.foldl run s

/-- A fresh marketplace deployed against collaborator state `t`. -/
def initM (t : Tokens) : MState :=
  { counter := 0, listings := [], locked := false, tok := t }

/-- Quantity bought from listing `id` by the operation, counting only
operations that do not revert. -/
def fillAt (s : MState) (op : MOp) (id : Nat) : Nat :=
  match op with
  | .buy _ lid qty _ =>
    match applyOp s op with
    | .ok _ => if lid = id then qty else 0
    | .error _ => 0
  | _ => 0

/-- Total quantity bought from listing `id` along a run of operations. -/
def fills : MState → List MOp → Nat → Nat
  | _, [], _ => 0
  | s, op :: rest, id => fillAt s op id + fills (run s op) rest id

/-- State invariant of the marketplace: the guard is released between
transactions, and every stored listing has a key between 1 and the counter,
carries its own key as `listingId`, satisfies the active-listing bounds, and
an ERC-721 listing never exceeds quantity 1. -/
def MInv (s : MState) : Prop :=
  s.locked = false ∧
  ∀ p ∈ s.listings, 1 ≤ p.1 ∧ p.1 ≤ s.counter ∧ p.2.listingId = p.1 ∧
    (p.2.active = true → 0 < p.2.pricePerUnit ∧ 0 < p.2.quantity) ∧
    (p.2.isERC1155 = false → p.2.quantity ≤ 1)

instance (s : MState) : Decidable (MInv s) := by
  unfold MInv
  infer_instance

end M

namespace P

/-- Account of the ERC-721-only marketplace contract. -/
def marketAddr : Nat := 1

/-- Account of the BSATSF_ERC721 token contract (`erc721`). -/
def tokenAddr : Nat := 2

/-- The `Listing` struct of the ERC-721-only marketplace, keyed by tokenId. -/
structure PListing where
  seller : Nat
  tokenId : Nat
  price : Nat
  active : Bool
deriving DecidableEq, Repr

/-- Mapping default: the all-zero listing. -/
def PListing.zero : PListing := { seller := 0, tokenId := 0, price := 0, active := false }

/-- Combined state of the ERC-721-only marketplace, the BSATSF_ERC721 token
contract it settles through, and the native-currency ledger. -/
structure PState where
  listings : List (Nat × PListing)
  activeTokenIds : List Nat
  owners : List (Nat × Nat)
  approved : List (Nat × Nat)
  operators : List ((Nat × Nat) × Bool)
  transferFee : Nat
  platformOwner : Nat
  locked : Bool
  eth : List (Nat × Nat)
deriving DecidableEq, Repr

/-- `listings[tokenId]` with the Solidity mapping default. -/
def getPL (s : PState) (tokenId : Nat) : PListing :=
  (aget s.listings tokenId).getD PListing.zero

/-- `getApproved(tokenId)` of BSATSF_ERC721 (address 0 when unset). -/
def getApprovedP (s : PState) (tokenId : Nat) : Nat :=
  (aget s.approved tokenId).getD 0

/-- `isApprovedForAll(owner, operator)` of BSATSF_ERC721. -/
def isOpP (s : PState) (owner op : Nat) : Bool :=
  (aget s.operators (owner, op)).getD false

/-- `list(tokenId, price)` of the ERC-721-only marketplace, caller `c`.
Stores (overwriting) `listings[tokenId]` and pushes onto `activeTokenIds`. -/
def list (s : PState) (c tokenId price : Nat) : Except String PState :=
  if ¬ 0 < price then .error "Price must be over 0" else
  match aget s.owners tokenId with
  | none => .error "ERC721 nonexistent token"
  | some ow =>
    if ¬ ow = c then .error "Not token owner" else
    if ¬ (getApprovedP s tokenId = marketAddr ∨ isOpP s c marketAddr = true) then
      .error "Marketplace not approved"
    else
      .ok { s with
            listings := aset s.listings tokenId
              { seller := c, tokenId := tokenId, price := price, active := true }
            activeTokenIds := s.activeTokenIds ++ [tokenId] }

/-- `cancel(tokenId)` of the ERC-721-only marketplace, caller `c`. -/
def cancel (s : PState) (c tokenId : Nat) : Except String PState :=
  let l := getPL s tokenId
  if ¬ l.active = true then .error "Not listed" else
  if ¬ l.seller = c then .error "Not seller" else
    .ok { s with listings := aset s.listings tokenId { l with active := false } }

/-- `transferAsset(from, to, tokenId)` of BSATSF_ERC721, `nonReentrant`,
caller `c`, attached payment `v`: authorization, fee check, OpenZeppelin
`_transfer`, fee routing to the platform owner, and excess refund. -/
def transferAsset (s : PState) (c a b tokenId v : Nat) : Except String PState :=
  if s.locked then .error "ReentrancyGuard" else
  if bget s.eth c < v then .error "insufficient sender balance" else
  let s0 : PState := { s with eth := ethT s.eth c tokenAddr v }
  match aget s0.owners tokenId with
  | none => .error "ERC721 nonexistent token"
  | some ow =>
    if ¬ (c = ow ∨ getApprovedP s tokenId = c ∨ isOpP s ow c = true) then
      .error "Not approved or owner"
    else
    if v < s.transferFee then .error "Insufficient transfer fee" else
    if b = 0 then .error "ERC721 transfer to zero address" else
    if ¬ ow = a then .error "ERC721 transfer from incorrect owner" else
    let s1 : PState := { s0 with
                         owners := aset s0.owners tokenId b
                         approved := aset s0.approved tokenId 0 }
    let s2 : PState :=
      if 0 < s.transferFee then
        { s1 with eth := ethT s1.eth tokenAddr s.platformOwner s.transferFee }
      else s1
    let refund := v - s.transferFee
    let s3 : PState :=
      if 0 < refund then { s2 with eth := ethT s2.eth tokenAddr c refund } else s2
    .ok s3

/-- `setTransferFee(fee)` of BSATSF_ERC721, `onlyOwner`, caller `c`. -/
def setTransferFee (s : PState) (c fee : Nat) : Except String PState :=
  if ¬ c = s.platformOwner then .error "Ownable caller is not the owner" else
    .ok { s with transferFee := fee }

/-- First part of `purchase(tokenId)` with `msg.value = v`, caller `c`: the
funding of `msg.value`, the activity and payment checks, and the payment
`payable(l.seller).transfer(l.price)`.  The returned state is the one
visible at the external `transferAsset` call. -/
def purchasePhase1 (s : PState) (c tokenId v : Nat) : Except String PState :=
  if bget s.eth c < v then .error "insufficient sender balance" else
  let s0 : PState := { s with eth := ethT s.eth c marketAddr v }
  let l := getPL s tokenId
  if ¬ l.active = true then .error "Not listed" else
  if v < l.price + s.transferFee then .error "Insufficient payment" else
    .ok { s0 with eth := ethT s0.eth marketAddr l.seller l.price }

/-- `purchase(tokenId)` with `msg.value = v`, caller `c`: phase 1, then
`transferAsset{value: fee}(l.seller, msg.sender, tokenId)` called by the
marketplace, then `listings[tokenId].active = false`. -/
def purchase (s : PState) (c tokenId v : Nat) : Except String PState := do
  let s1 ← purchasePhase1 s c tokenId v
  let l := getPL s tokenId
  let s2 ← transferAsset s1 marketAddr l.seller c tokenId s.transferFee
  pure { s2 with listings := aset s2.listings tokenId { getPL s2 tokenId with active := false } }

/-- `getListing(tokenId)`. -/
def getListing (s : PState) (tokenId : Nat) : PListing := getPL s tokenId

/-- `getActiveListings()`: walk `activeTokenIds` and keep the entries whose
listing is currently active, in array order. -/
def getActiveListings (s : PState) : List PListing :=
  s.activeTokenIds.filterMap
    (fun t => if (getPL s t).active = true then some (getPL s t) else none)

/-- The operations of the ERC-721-only system. -/
inductive POp where
  | list (c tokenId price : Nat)
  | cancel (c tokenId : Nat)
  | purchase (c tokenId v : Nat)
  | transferDirect (c a b tokenId v : Nat)
  | setFee (c fee : Nat)
deriving DecidableEq, Repr

def applyPOp (s : PState) : POp → Except String PState
  | .list c tokenId price => list s c tokenId price
  | .cancel c tokenId => cancel s c tokenId
  | .purchase c tokenId v => purchase s c tokenId v
  | .transferDirect c a b tokenId v => transferAsset s c a b tokenId v
  | .setFee c fee => setTransferFee s c fee

/-- Committing transaction semantics: a reverted call leaves state unchanged. -/
def runOp (s : PState) (op : POp) : PState :=
  match applyPOp s op with
  | .ok s2 => s2
  | .error _ => s

def runAllP (s : PState) (ops : List POp) : PState := ops.foldl runOp s

end P

namespace M

/-- New listing stored by `listERC721`. -/
def newL721 (s : MState) (c tokenId price : Nat) : Listing :=
  { listingId := s.counter + 1, seller := c, tokenAddress := erc721Addr,
    tokenId := tokenId, quantity := 1, pricePerUnit := price,
    isERC1155 := false, active := true }

/-- New listing stored by `listERC1155`. -/
def newL1155 (s : MState) (c tokenId quantity pricePerUnit : Nat) : Listing :=
  { listingId := s.counter + 1, seller := c, tokenAddress := erc1155Addr,
    tokenId := tokenId, quantity := quantity, pricePerUnit := pricePerUnit,
    isERC1155 := true, active := true }

/-- Listing record after a fill of `qty` units. -/
def soldL (l : Listing) (qty : Nat) : Listing :=
  { l with quantity := l.quantity - qty
           active := if l.quantity - qty = 0 then false else l.active }

/-- Net native-currency ledger after a successful `buyItem`: fund the call,
pay the seller, refund the excess. -/
def ethAfterBuy (e : List (Nat × Nat)) (c seller total v : Nat) : List (Nat × Nat) :=
  if total < v then
    ethT (ethT (ethT e c marketAddr v) marketAddr seller total) marketAddr c (v - total)
  else ethT (ethT e c marketAddr v) marketAddr seller total

end M

namespace P

/-- Net native-currency ledger after a successful `transferAsset`: fund the
call, route the fee, refund the excess. -/
def ethAfterTA (e : List (Nat × Nat)) (c po fee v : Nat) : List (Nat × Nat) :=
  if 0 < v - fee then
    ethT (if 0 < fee then ethT (ethT e c tokenAddr v) tokenAddr po fee
          else ethT e c tokenAddr v) tokenAddr c (v - fee)
  else
    (if 0 < fee then ethT (ethT e c tokenAddr v) tokenAddr po fee
     else ethT e c tokenAddr v)

end P

instance {ε α : Type} [DecidableEq ε] [DecidableEq α] : DecidableEq (Except ε α) := fun x y =>
  match x, y with
  | .ok a, .ok b => decidable_of_iff (a = b) ⟨fun h => by rw [h], fun h => by injection h⟩
  | .error a, .error b => decidable_of_iff (a = b) ⟨fun h => by rw [h], fun h => by injection h⟩
  | .ok _, .error _ => .isFalse (fun h => Except.noConfusion h)
  | .error _, .ok _ => .isFalse (fun h => Except.noConfusion h)

/-
  Concrete sample states used by the witnesses and counterexamples.
  Accounts: 10 (alice, seller), 11 (bob, buyer), 12 (carol), 13 (platform
  owner); account 1 is the marketplace contract, account 2 the token contract.
-/

/-- Collaborator state: alice owns ERC-721 token 7 (marketplace approved) and
50 units of ERC-1155 token 9 (marketplace operator-approved). -/
def mtok : M.Tokens :=
  { eth := [(10, 1000), (11, 1000), (12, 1000)]
    owners721 := [(7, 10)]
    approved721 := [(7, M.marketAddr)]
    operators721 := []
    bal1155 := [((10, 9), 50)]
    operators1155 := [((10, M.marketAddr), true)] }

/-- Two-token marketplace after alice lists 10 units of token 9 at 2 wei each
(listing 1) and token 7 at 5 wei (listing 2). -/
def msA : M.MState := M.runAll (M.initM mtok) [.list1155 10 9 10 2, .list721 10 7 5]

/-- State after bob buys 4 units of listing 1 attaching 9 wei (1 wei excess). -/
def msB : M.MState := M.run msA (.buy 11 1 4 9)

/-- State after alice cancels listing 2. -/
def msC : M.MState := M.run msA (.cancel 10 2)

/-- ERC-721-only system: alice owns token 5, marketplace approved for it,
transfer fee 10 wei, platform owner account 13. -/
def psA : P.PState :=
  { listings := []
    activeTokenIds := []
    owners := [(5, 10)]
    approved := [(5, P.marketAddr)]
    operators := []
    transferFee := 10
    platformOwner := 13
    locked := false
    eth := [(10, 1000), (11, 1000), (12, 1000), (13, 1000)] }

/-- After alice lists token 5 at price 100. -/
def pListed1 : P.PState := P.runOp psA (.list 10 5 100)

/-- After alice cancels that listing. -/
def pCancelled1 : P.PState := P.runOp pListed1 (.cancel 10 5)

/-- After alice lists token 5 again at the same price. -/
def pRelisted1 : P.PState := P.runOp pCancelled1 (.list 10 5 100)

/-- After alice lists token 5 again at price 200 instead. -/
def pRelistedPr : P.PState := P.runOp pCancelled1 (.list 10 5 200)

/-- After bob purchases token 5 attaching 160 wei (price 100, fee 10). -/
def pBought1 : P.PState := P.runOp pListed1 (.purchase 11 5 160)

/-- The intermediate state of that purchase at the external transfer call. -/
def pMid1 : P.PState :=
  match P.purchasePhase1 pListed1 11 5 160 with
  | .ok s => s
  | .error _ => pListed1

/-- After alice directly transfers token 5 to bob attaching 15 wei. -/
def pTA : P.PState := P.runOp psA (.transferDirect 10 10 11 5 15)

/-- The intermediate state of the sample `buyItem` at the external
asset-transfer call. -/
def msMid : M.MState :=
  match M.buyItemP1 msA 11 1 4 9 with
  | .ok s => s
  | .error _ => msA

theorem aget_aset {κ α : Type} [DecidableEq κ] (m : List (κ × α)) (k k2 : κ) (v : α) :
    aget (aset m k v) k2 = if k2 = k then some v else aget m k2 := by
  induction m with
  | nil =>
    simp only [aset, aget]
    rcases eq_or_ne k k2 with h | h
    · subst h; simp
    · rw [if_neg h, if_neg (Ne.symm h)]
  | cons p rest ih =>
    by_cases hp : p.1 = k
    · subst hp
      simp only [aset, if_pos rfl, aget]
      rcases eq_or_ne p.1 k2 with h | h
      · rw [if_pos h, if_pos h.symm]
      · rw [if_neg h, if_neg (Ne.symm h), if_neg h]
    · simp only [aset, if_neg hp, aget, ih]
      rcases eq_or_ne p.1 k2 with h | h
      · have hk : k2 ≠ k := fun hh => hp (h.trans hh)
        rw [if_pos h, if_neg hk, if_pos h]
      · rw [if_neg h]
        rcases eq_or_ne k2 k with h2 | h2
        · rw [if_pos h2, if_pos h2]
        · rw [if_neg h2, if_neg h2, if_neg h]

theorem mem_of_aget {κ α : Type} [DecidableEq κ] {m : List (κ × α)} {k : κ} {v : α}
    (h : aget m k = some v) : (k, v) ∈ m := by
  induction m with
  | nil => simp [aget] at h
  | cons p rest ih =>
    simp only [aget] at h
    by_cases hp : p.1 = k
    · rw [if_pos hp] at h
      injection h with h
      subst hp
      subst h
      simp
    · rw [if_neg hp] at h
      exact List.mem_cons_of_mem _ (ih h)

theorem mem_aset {κ α : Type} [DecidableEq κ] {m : List (κ × α)} {k : κ} {v : α}
    {p : κ × α} (h : p ∈ aset m k v) : p = (k, v) ∨ p ∈ m := by
  induction m with
  | nil => simp [aset] at h; simp [h]
  | cons q rest ih =>
    simp only [aset] at h
    by_cases hq : q.1 = k
    · rw [if_pos hq] at h
      rcases List.mem_cons.mp h with h1 | h1
      · exact Or.inl h1
      · exact Or.inr (List.mem_cons_of_mem _ h1)
    · rw [if_neg hq] at h
      rcases List.mem_cons.mp h with h1 | h1
      · exact Or.inr (h1 ▸ List.mem_cons_self _ _)
      · rcases ih h1 with h2 | h2
        · exact Or.inl h2
        · exact Or.inr (List.mem_cons_of_mem _ h2)

theorem bget_aset (m : List (Nat × Nat)) (k k2 v : Nat) :
    bget (aset m k v) k2 = if k2 = k then v else bget m k2 := by
  simp only [bget, aget_aset]
  by_cases h : k2 = k <;> simp [h]

theorem bget_ethT (m : List (Nat × Nat)) (a b amt k : Nat) :
    bget (ethT m a b amt) k =
      if k = b then (if b = a then bget m a - amt else bget m b) + amt
      else if k = a then bget m a - amt
      else bget m k := by
  simp only [ethT, bget_aset]

namespace M

theorem list721_ok {s s2 : MState} {c tokenId price : Nat}
    (h : listERC721 s c tokenId price = .ok s2) :
    s.locked = false ∧ 0 < price ∧ aget s.tok.owners721 tokenId = some c ∧
      s2 = { s with
             counter := s.counter + 1
             listings := aset s.listings (s.counter + 1) (newL721 s c tokenId price) } := by
  unfold listERC721 at h
  split at h
  · simp at h
  · split at h
    · simp at h
    · split at h
      · simp at h
      · rename_i how
        split at h
        · simp at h
        · split at h
          · simp at h
          · rename_i hlk _ hown _
            injection h with h
            refine ⟨by simp_all, by omega, ?_, ?_⟩
            · rw [how]
              congr 1
              omega
            · rw [← h]
              rfl

theorem list1155_ok {s s2 : MState} {c tokenId q ppu : Nat}
    (h : listERC1155 s c tokenId q ppu = .ok s2) :
    s.locked = false ∧ 0 < ppu ∧ 0 < q ∧
      s2 = { s with
             counter := s.counter + 1
             listings := aset s.listings (s.counter + 1) (newL1155 s c tokenId q ppu) } := by
  unfold listERC1155 at h
  split at h
  · simp at h
  · split at h
    · simp at h
    · split at h
      · simp at h
      · split at h
        · simp at h
        · split at h
          · simp at h
          · injection h with h
            refine ⟨by simp_all, by omega, by omega, ?_⟩
            rw [← h]
            rfl

theorem cancel_ok {s s2 : MState} {c id : Nat}
    (h : cancelListing s c id = .ok s2) :
    (getL s id).seller = c ∧ (getL s id).active = true ∧
      s2 = { s with listings := aset s.listings id { getL s id with active := false } } := by
  unfold cancelListing at h
  dsimp only at h
  split at h
  · simp at h
  · split at h
    · simp at h
    · injection h with h
      refine ⟨by simp_all, by simp_all, by rw [← h]⟩

theorem cancel_succeeds {s : MState} {c id : Nat}
    (h1 : (getL s id).seller = c) (h2 : (getL s id).active = true) :
    cancelListing s c id =
      .ok { s with listings := aset s.listings id { getL s id with active := false } } := by
  unfold cancelListing
  rw [if_neg (by simp [h1]), if_neg (by simp [h2])]

theorem buyP1_ok {s s1 : MState} {c id qty v : Nat}
    (h : buyItemP1 s c id qty v = .ok s1) :
    s.locked = false ∧ v ≤ bget s.tok.eth c ∧ (getL s id).active = true ∧
      0 < qty ∧ qty ≤ (getL s id).quantity ∧ (getL s id).pricePerUnit * qty ≤ v ∧
      s1 = { s with
             locked := true
             tok := { s.tok with
               eth := ethT (ethT s.tok.eth c marketAddr v) marketAddr
                 (getL s id).seller ((getL s id).pricePerUnit * qty) } } := by
  unfold buyItemP1 at h
  split at h
  · simp at h
  · split at h
    · simp at h
    · dsimp only at h
      split at h
      · simp at h
      · split at h
        · simp at h
        · split at h
          · simp at h
          · injection h with h
            refine ⟨by simp_all, by omega, by simp_all, ?_, ?_, by omega, by rw [← h]⟩
            · rename_i hq _
              rw [not_not] at hq
              exact hq.1
            · rename_i hq _
              rw [not_not] at hq
              exact hq.2

theorem mta_ok_frame {s s2 : MState} {buyer id qty : Nat}
    (h : marketTransferAsset s buyer id qty = .ok s2) :
    s2.listings = s.listings ∧ s2.counter = s.counter ∧ s2.locked = s.locked ∧
      s2.tok.eth = s.tok.eth := by
  unfold marketTransferAsset at h
  dsimp only at h
  split at h
  · split at h
    · simp at h
    · split at h
      · simp at h
      · split at h
        · simp at h
        · injection h with h
          rw [← h]
          exact ⟨rfl, rfl, rfl, rfl⟩
  · split at h
    · simp at h
    · split at h
      · simp at h
      · split at h
        · simp at h
        · split at h
          · simp at h
          · injection h with h
            rw [← h]
            exact ⟨rfl, rfl, rfl, rfl⟩

theorem mta_ok_1155 {s s2 : MState} {buyer id qty : Nat}
    (hk : (getL s id).isERC1155 = true)
    (hbs : buyer ≠ (getL s id).seller)
    (h : marketTransferAsset s buyer id qty = .ok s2) :
    qty ≤ bal1155Get s.tok (getL s id).seller (getL s id).tokenId ∧
      bal1155Get s2.tok buyer (getL s id).tokenId =
        bal1155Get s.tok buyer (getL s id).tokenId + qty ∧
      bal1155Get s2.tok (getL s id).seller (getL s id).tokenId =
        bal1155Get s.tok (getL s id).seller (getL s id).tokenId - qty := by
  unfold marketTransferAsset at h
  dsimp only at h
  rw [hk] at h
  simp only [if_true] at h
  split at h
  · simp at h
  · split at h
    · simp at h
    · split at h
      · simp at h
      · rename_i hbal
        injection h with h
        rw [not_lt] at hbal
        refine ⟨hbal, ?_, ?_⟩
        · rw [← h]
          simp only [bal1155Get, aget_aset]
          simp [Prod.ext_iff, hbs]
        · rw [← h]
          simp only [bal1155Get, aget_aset]
          simp [Prod.ext_iff, Ne.symm hbs]

theorem mta_ok_721 {s s2 : MState} {buyer id qty : Nat}
    (hk : (getL s id).isERC1155 = false)
    (h : marketTransferAsset s buyer id qty = .ok s2) :
    aget s.tok.owners721 (getL s id).tokenId = some (getL s id).seller ∧
      aget s2.tok.owners721 (getL s id).tokenId = some buyer := by
  unfold marketTransferAsset at h
  dsimp only at h
  rw [hk] at h
  simp only [Bool.false_eq_true, if_false] at h
  split at h
  · simp at h
  · rename_i ow how
    split at h
    · simp at h
    · split at h
      · simp at h
      · rename_i hws
        split at h
        · simp at h
        · injection h with h
          rw [not_not] at hws
          refine ⟨by rw [how, hws], ?_⟩
          rw [← h]
          simp [aget_aset]

theorem buy_ok {s s2 : MState} {c id qty v : Nat}
    (h : buyItem s c id qty v = .ok s2) :
    s.locked = false ∧ v ≤ bget s.tok.eth c ∧ (getL s id).active = true ∧
      0 < qty ∧ qty ≤ (getL s id).quantity ∧ (getL s id).pricePerUnit * qty ≤ v ∧
      s2.counter = s.counter ∧ s2.locked = false ∧
      s2.listings = aset s.listings id (soldL (getL s id) qty) ∧
      s2.tok.eth = ethAfterBuy s.tok.eth c (getL s id).seller ((getL s id).pricePerUnit * qty) v ∧
      ∃ s1 sm, buyItemP1 s c id qty v = .ok s1 ∧ marketTransferAsset s1 c id qty = .ok sm ∧
        getL s1 id = getL s id ∧ s1.tok.bal1155 = s.tok.bal1155 ∧
        s1.tok.owners721 = s.tok.owners721 ∧
        s2.tok.bal1155 = sm.tok.bal1155 ∧ s2.tok.owners721 = sm.tok.owners721 := by
  unfold buyItem at h
  simp only [bind, Except.bind] at h
  cases h1 : buyItemP1 s c id qty v with
  | error e => rw [h1] at h; simp at h
  | ok s1 =>
    rw [h1] at h
    dsimp only at h
    cases hm : marketTransferAsset s1 c id qty with
    | error e => rw [hm] at h; simp at h
    | ok sm =>
      rw [hm] at h
      dsimp only at h
      simp only [pure, Except.pure, Except.ok.injEq] at h
      obtain ⟨hl, hv, hact, hq0, hqle, htot, hs1⟩ := buyP1_ok h1
      obtain ⟨hfl, hfc, hflk, hfe⟩ := mta_ok_frame hm
      have hs1l : s1.listings = s.listings := by rw [hs1]
      have hs1c : s1.counter = s.counter := by rw [hs1]
      have hgm : getL sm id = getL s id := by unfold getL; rw [hfl, hs1l]
      have hsme : sm.tok.eth =
          ethT (ethT s.tok.eth c marketAddr v) marketAddr (getL s id).seller
            ((getL s id).pricePerUnit * qty) := by
        rw [hfe, hs1]
      subst h
      refine ⟨hl, hv, hact, hq0, hqle, htot, ?_, ?_, ?_, ?_, s1, sm, rfl, hm,
        (by unfold getL; rw [hs1l]), (by rw [hs1]), (by rw [hs1]), ?_, ?_⟩
      · unfold buyItemP2
        dsimp only
        split <;> (dsimp only; rw [hfc, hs1c])
      · unfold buyItemP2
        dsimp only
      · unfold buyItemP2
        dsimp only
        rw [hgm, hfl, hs1l]
        unfold soldL
        split <;> rfl
      · unfold buyItemP2 ethAfterBuy
        dsimp only
        rw [hgm]
        split
        · dsimp only
          rw [hsme]
        · rw [hsme]
      · unfold buyItemP2
        dsimp only
        split <;> rfl
      · unfold buyItemP2
        dsimp only
        split <;> rfl

theorem aget_of_active {s : MState} {id : Nat} (h : (getL s id).active = true) :
    aget s.listings id = some (getL s id) := by
  unfold getL
  cases hg : aget s.listings id with
  | none =>
    unfold getL at h
    rw [hg] at h
    simp [Listing.zero] at h
  | some l => rfl

theorem run_of_error {s : MState} {op : MOp} {e : String}
    (h : applyOp s op = .error e) : run s op = s := by
  unfold run
  rw [h]

theorem run_of_ok {s s2 : MState} {op : MOp}
    (h : applyOp s op = .ok s2) : run s op = s2 := by
  unfold run
  rw [h]

/-- An inactive stored listing is never touched again by any operation. -/
theorem frozen_inactive {s : MState} {id : Nat} {l : Listing}
    (hInv : MInv s) (hg : aget s.listings id = some l) (hia : l.active = false)
    (op : MOp) : aget (run s op).listings id = some l := by
  have hle : id ≤ s.counter := ((hInv.2 _ (mem_of_aget hg)).2.1)
  have hgl : getL s id = l := by
    unfold getL
    rw [hg]
    rfl
  cases op with
  | list721 c tid price =>
    cases hr : applyOp s (.list721 c tid price) with
    | error e => rw [run_of_error hr, hg]
    | ok s2 =>
      rw [run_of_ok hr]
      obtain ⟨-, -, -, hs2⟩ := list721_ok hr
      rw [hs2]
      dsimp only
      rw [aget_aset, if_neg (by omega), hg]
  | list1155 c tid q ppu =>
    cases hr : applyOp s (.list1155 c tid q ppu) with
    | error e => rw [run_of_error hr, hg]
    | ok s2 =>
      rw [run_of_ok hr]
      obtain ⟨-, -, -, hs2⟩ := list1155_ok hr
      rw [hs2]
      dsimp only
      rw [aget_aset, if_neg (by omega), hg]
  | cancel c id2 =>
    cases hr : applyOp s (.cancel c id2) with
    | error e => rw [run_of_error hr, hg]
    | ok s2 =>
      rw [run_of_ok hr]
      obtain ⟨-, hact, hs2⟩ := cancel_ok hr
      have hne : id ≠ id2 := by
        intro hh
        rw [← hh, hgl, hia] at hact
        exact Bool.false_ne_true hact
      rw [hs2]
      dsimp only
      rw [aget_aset, if_neg hne, hg]
  | buy c id2 qty v =>
    cases hr : applyOp s (.buy c id2 qty v) with
    | error e => rw [run_of_error hr, hg]
    | ok s2 =>
      rw [run_of_ok hr]
      obtain ⟨-, -, hact, -, -, -, -, -, hls, -, -⟩ := buy_ok hr
      have hne : id ≠ id2 := by
        intro hh
        rw [← hh, hgl, hia] at hact
        exact Bool.false_ne_true hact
      rw [hls, aget_aset, if_neg hne, hg]

/-- Every operation preserves the marketplace invariant. -/
theorem minv_run {s : MState} (hInv : MInv s) (op : MOp) : MInv (run s op) := by
  obtain ⟨hlk, hL⟩ := hInv
  cases op with
  | list721 c tid price =>
    cases hr : applyOp s (.list721 c tid price) with
    | error e => rw [run_of_error hr]; exact ⟨hlk, hL⟩
    | ok s2 =>
      rw [run_of_ok hr]
      obtain ⟨-, hp, -, hs2⟩ := list721_ok hr
      rw [hs2]
      refine ⟨hlk, ?_⟩
      intro p hp2
      dsimp only at hp2 ⊢
      rcases mem_aset hp2 with hh | hh
      · subst hh
        simp [newL721, hp]
      · obtain ⟨h1, h2, h3, h4, h5⟩ := hL _ hh
        exact ⟨h1, by omega, h3, h4, h5⟩
  | list1155 c tid q ppu =>
    cases hr : applyOp s (.list1155 c tid q ppu) with
    | error e => rw [run_of_error hr]; exact ⟨hlk, hL⟩
    | ok s2 =>
      rw [run_of_ok hr]
      obtain ⟨-, hp, hq, hs2⟩ := list1155_ok hr
      rw [hs2]
      refine ⟨hlk, ?_⟩
      intro p hp2
      dsimp only at hp2 ⊢
      rcases mem_aset hp2 with hh | hh
      · subst hh
        simp [newL1155, hp, hq]
      · obtain ⟨h1, h2, h3, h4, h5⟩ := hL _ hh
        exact ⟨h1, by omega, h3, h4, h5⟩
  | cancel c id2 =>
    cases hr : applyOp s (.cancel c id2) with
    | error e => rw [run_of_error hr]; exact ⟨hlk, hL⟩
    | ok s2 =>
      rw [run_of_ok hr]
      obtain ⟨-, hact, hs2⟩ := cancel_ok hr
      have hmem := mem_of_aget (aget_of_active hact)
      obtain ⟨h1, h2, h3, h4, h5⟩ := hL _ hmem
      rw [hs2]
      refine ⟨hlk, ?_⟩
      intro p hp2
      rcases mem_aset hp2 with hh | hh
      · subst hh
        refine ⟨h1, h2, h3, ?_, h5⟩
        intro hfalse
        simp at hfalse
      · exact hL _ hh
  | buy c id2 qty v =>
    cases hr : applyOp s (.buy c id2 qty v) with
    | error e => rw [run_of_error hr]; exact ⟨hlk, hL⟩
    | ok s2 =>
      rw [run_of_ok hr]
      obtain ⟨-, -, hact, hq0, hqle, -, hc2, hlk2, hls, -, -⟩ := buy_ok hr
      have hmem := mem_of_aget (aget_of_active hact)
      obtain ⟨h1, h2, h3, h4, h5⟩ := hL _ hmem
      refine ⟨hlk2, ?_⟩
      intro p hp2
      rw [hls] at hp2
      rcases mem_aset hp2 with hh | hh
      · subst hh
        rw [hc2]
        refine ⟨h1, h2, h3, ?_, ?_⟩
        · intro hact2
          unfold soldL at hact2
          dsimp only at hact2
          constructor
          · exact (h4 hact).1
          · unfold soldL
            dsimp only
            rcases Nat.eq_zero_or_pos ((getL s id2).quantity - qty) with hz | hz
            · rw [hz] at hact2
              simp at hact2
            · exact hz
        · intro h1155
          unfold soldL at h1155 ⊢
          dsimp only at h1155 ⊢
          exact le_trans (Nat.sub_le _ _) (h5 h1155)
      · rw [hc2]
        exact hL _ hh

theorem minv_runAll_of : ∀ (ops : List MOp) (s : MState), MInv s → MInv (runAll s ops)
  | [], _, h => h
  | op :: rest, s, h => by
    unfold runAll
    rw [List.foldl_cons]
    exact minv_runAll_of rest (run s op) (minv_run h op)

/-- The invariant holds in every reachable state. -/
theorem minv_runAll (t : Tokens) (ops : List MOp) : MInv (runAll (initM t) ops) := by
  refine minv_runAll_of ops (initM t) ⟨rfl, ?_⟩
  intro p hp
  simp [initM] at hp

theorem fills_le : ∀ (ops : List MOp) (s : MState) (id : Nat), id ≤ s.counter →
    fills s ops id ≤ (getL s id).quantity := by
  intro ops
  induction ops with
  | nil =>
    intro s id _
    simp [fills]
  | cons op rest ih =>
    intro s id hid
    rw [show fills s (op :: rest) id = fillAt s op id + fills (run s op) rest id from rfl]
    cases op with
    | list721 c tid price =>
      rw [show fillAt s (.list721 c tid price) id = 0 from rfl, Nat.zero_add]
      cases hr : applyOp s (.list721 c tid price) with
      | error e =>
        rw [run_of_error hr]
        exact ih s id hid
      | ok s2 =>
        rw [run_of_ok hr]
        obtain ⟨-, -, -, hs2⟩ := list721_ok hr
        have hcnt : id ≤ s2.counter := by rw [hs2]; dsimp only; omega
        have hgl : getL s2 id = getL s id := by
          unfold getL
          rw [hs2]
          dsimp only
          rw [aget_aset, if_neg (by omega)]
        rw [← hgl]
        exact ih s2 id hcnt
    | list1155 c tid q ppu =>
      rw [show fillAt s (.list1155 c tid q ppu) id = 0 from rfl, Nat.zero_add]
      cases hr : applyOp s (.list1155 c tid q ppu) with
      | error e =>
        rw [run_of_error hr]
        exact ih s id hid
      | ok s2 =>
        rw [run_of_ok hr]
        obtain ⟨-, -, -, hs2⟩ := list1155_ok hr
        have hcnt : id ≤ s2.counter := by rw [hs2]; dsimp only; omega
        have hgl : getL s2 id = getL s id := by
          unfold getL
          rw [hs2]
          dsimp only
          rw [aget_aset, if_neg (by omega)]
        rw [← hgl]
        exact ih s2 id hcnt
    | cancel c id2 =>
      rw [show fillAt s (.cancel c id2) id = 0 from rfl, Nat.zero_add]
      cases hr : applyOp s (.cancel c id2) with
      | error e =>
        rw [run_of_error hr]
        exact ih s id hid
      | ok s2 =>
        rw [run_of_ok hr]
        obtain ⟨-, -, hs2⟩ := cancel_ok hr
        have hcnt : id ≤ s2.counter := by rw [hs2]; exact hid
        have hquant : (getL s2 id).quantity = (getL s id).quantity := by
          unfold getL
          rw [hs2]
          dsimp only
          rw [aget_aset]
          by_cases hii : id = id2
          · subst hii
            rw [if_pos rfl]
            rfl
          · rw [if_neg hii]
        rw [← hquant]
        exact ih s2 id hcnt
    | buy c lid q v =>
      cases hr : applyOp s (.buy c lid q v) with
      | error e =>
        have hf : fillAt s (.buy c lid q v) id = 0 := by
          unfold fillAt
          rw [hr]
        rw [hf, Nat.zero_add, run_of_error hr]
        exact ih s id hid
      | ok s2 =>
        obtain ⟨-, -, -, -, hqle, -, hc2, -, hls, -, -⟩ := buy_ok hr
        have hf : fillAt s (.buy c lid q v) id = if lid = id then q else 0 := by
          unfold fillAt
          rw [hr]
        rw [hf, run_of_ok hr]
        have hcnt : id ≤ s2.counter := by rw [hc2]; exact hid
        by_cases hli : lid = id
        · subst hli
          rw [if_pos rfl]
          have hgl2 : getL s2 lid = soldL (getL s lid) q := by
            unfold getL
            rw [hls, aget_aset, if_pos rfl]
            rfl
          have hrec := ih s2 lid hcnt
          rw [hgl2] at hrec
          unfold soldL at hrec
          dsimp only at hrec
          omega
        · rw [if_neg hli, Nat.zero_add]
          have hgl : getL s2 id = getL s id := by
            unfold getL
            rw [hls, aget_aset, if_neg (fun hh => hli hh.symm)]
          rw [← hgl]
          exact ih s2 id hcnt

theorem getL_id {s : MState} {id : Nat} (hInv : MInv s) (h : (getL s id).active = true) :
    (getL s id).listingId = id :=
  (hInv.2 _ (mem_of_aget (aget_of_active h))).2.2.1

theorem getL_bounds {s : MState} {id : Nat} (hInv : MInv s) (h : (getL s id).active = true) :
    1 ≤ id ∧ id ≤ s.counter :=
  ⟨(hInv.2 _ (mem_of_aget (aget_of_active h))).1,
   (hInv.2 _ (mem_of_aget (aget_of_active h))).2.1⟩

/-- Membership in `getAllActiveListings`: exactly the stored active listings. -/
theorem gAAL_mem {s : MState} (hInv : MInv s) {l : Listing} :
    l ∈ getAllActiveListings s ↔ aget s.listings l.listingId = some l ∧ l.active = true := by
  unfold getAllActiveListings
  rw [List.mem_filterMap]
  constructor
  · rintro ⟨i, hi, hf⟩
    by_cases ha : (getL s i).active = true
    · rw [if_pos ha] at hf
      injection hf with hf
      subst hf
      exact ⟨by rw [getL_id hInv ha]; exact aget_of_active ha, ha⟩
    · rw [if_neg ha] at hf
      exact absurd hf (by simp)
  · rintro ⟨hg, ha⟩
    refine ⟨l.listingId, ?_, ?_⟩
    · have hmem := hInv.2 _ (mem_of_aget hg)
      rw [List.mem_range'_1]
      omega
    · have hgl : getL s l.listingId = l := by
        unfold getL
        rw [hg]
        rfl
      rw [hgl, if_pos ha]

/-- The enumeration is strictly increasing in `listingId` (hence duplicate-free
and in insertion order). -/
theorem gAAL_sorted {s : MState} (hInv : MInv s) :
    (getAllActiveListings s).Pairwise (fun a b => a.listingId < b.listingId) := by
  unfold getAllActiveListings
  refine List.Pairwise.filterMap _ ?_ (List.pairwise_lt_range' 1 s.counter)
  intro i j hij b hb b2 hb2
  by_cases hai : (getL s i).active = true
  · rw [if_pos hai] at hb
    by_cases haj : (getL s j).active = true
    · rw [if_pos haj] at hb2
      have hbi : b = getL s i := by
        cases hb
        rfl
      have hbj : b2 = getL s j := by
        cases hb2
        rfl
      rw [hbi, hbj, getL_id hInv hai, getL_id hInv haj]
      exact hij
    · rw [if_neg haj] at hb2
      exact absurd hb2 (by simp)
  · rw [if_neg hai] at hb
    exact absurd hb (by simp)

end M

namespace P

theorem plist_ok {s s2 : PState} {c tokenId price : Nat}
    (h : list s c tokenId price = .ok s2) :
    0 < price ∧ aget s.owners tokenId = some c ∧
      s2 = { s with
             listings := aset s.listings tokenId
               { seller := c, tokenId := tokenId, price := price, active := true }
             activeTokenIds := s.activeTokenIds ++ [tokenId] } := by
  unfold list at h
  split at h
  · simp at h
  · split at h
    · simp at h
    · rename_i ow how
      split at h
      · simp at h
      · split at h
        · simp at h
        · rename_i hown _
          injection h with h
          rw [not_not] at hown
          refine ⟨by omega, by rw [how, hown], by rw [← h]⟩

theorem pcancel_ok {s s2 : PState} {c tokenId : Nat}
    (h : cancel s c tokenId = .ok s2) :
    (getPL s tokenId).active = true ∧ (getPL s tokenId).seller = c ∧
      s2 = { s with listings := aset s.listings tokenId { getPL s tokenId with active := false } } := by
  unfold cancel at h
  dsimp only at h
  split at h
  · simp at h
  · split at h
    · simp at h
    · injection h with h
      refine ⟨by simp_all, by simp_all, by rw [← h]⟩

theorem pcancel_succeeds {s : PState} {c tokenId : Nat}
    (h1 : (getPL s tokenId).active = true) (h2 : (getPL s tokenId).seller = c) :
    cancel s c tokenId =
      .ok { s with listings := aset s.listings tokenId { getPL s tokenId with active := false } } := by
  unfold cancel
  rw [if_neg (by simp [h1]), if_neg (by simp [h2])]

theorem transferAsset_ok {s s2 : PState} {c a b tokenId v : Nat}
    (h : transferAsset s c a b tokenId v = .ok s2) :
    s.locked = false ∧ v ≤ bget s.eth c ∧ aget s.owners tokenId = some a ∧
      (c = a ∨ getApprovedP s tokenId = c ∨ isOpP s a c = true) ∧
      s.transferFee ≤ v ∧ b ≠ 0 ∧
      s2 = { s with
             owners := aset s.owners tokenId b
             approved := aset s.approved tokenId 0
             eth := ethAfterTA s.eth c s.platformOwner s.transferFee v } := by
  unfold transferAsset at h
  split at h
  · simp at h
  · split at h
    · simp at h
    · dsimp only at h
      split at h
      · simp at h
      · rename_i ow how
        split at h
        · simp at h
        · split at h
          · simp at h
          · split at h
            · simp at h
            · split at h
              · simp at h
              · rename_i hauth _ hb hwa
                injection h with h
                rw [not_not] at hauth hwa
                subst hwa
                refine ⟨by simp_all, by omega, how, hauth, by omega, hb, ?_⟩
                rw [← h]
                unfold ethAfterTA
                by_cases hfee : 0 < s.transferFee
                · by_cases href : 0 < v - s.transferFee
                  · simp only [if_pos hfee, if_pos href]
                  · simp only [if_pos hfee, if_neg href]
                · by_cases href : 0 < v - s.transferFee
                  · simp only [if_neg hfee, if_pos href]
                  · simp only [if_neg hfee, if_neg href]

theorem pphase1_ok {s s1 : PState} {c tokenId v : Nat}
    (h : purchasePhase1 s c tokenId v = .ok s1) :
    v ≤ bget s.eth c ∧ (getPL s tokenId).active = true ∧
      (getPL s tokenId).price + s.transferFee ≤ v ∧
      s1 = { s with eth := ethT (ethT s.eth c marketAddr v) marketAddr (getPL s tokenId).seller (getPL s tokenId).price } := by
  unfold purchasePhase1 at h
  split at h
  · simp at h
  · dsimp only at h
    split at h
    · simp at h
    · split at h
      · simp at h
      · injection h with h
        refine ⟨by omega, by simp_all, by omega, by rw [← h]⟩

/-- At the state `purchasePhase1` hands to the external `transferAsset` call,
the listing has not been finalized: its record is exactly as before. -/
theorem pphase1_listings {s s1 : PState} {c tokenId v : Nat}
    (h : purchasePhase1 s c tokenId v = .ok s1) :
    s1.listings = s.listings ∧ s1.activeTokenIds = s.activeTokenIds ∧
      s1.transferFee = s.transferFee ∧ s1.locked = s.locked ∧ s1.owners = s.owners ∧
      s1.approved = s.approved ∧ s1.operators = s.operators ∧
      s1.platformOwner = s.platformOwner := by
  obtain ⟨-, -, -, hs1⟩ := pphase1_ok h
  rw [hs1]
  exact ⟨rfl, rfl, rfl, rfl, rfl, rfl, rfl, rfl⟩

theorem ppurchase_ok {s s2 : PState} {c tokenId v : Nat}
    (h : purchase s c tokenId v = .ok s2) :
    v ≤ bget s.eth c ∧ (getPL s tokenId).active = true ∧
      (getPL s tokenId).price + s.transferFee ≤ v ∧
      ∃ s1 sm, purchasePhase1 s c tokenId v = .ok s1 ∧
        transferAsset s1 marketAddr (getPL s tokenId).seller c tokenId s.transferFee = .ok sm ∧
        s2 = { sm with listings := aset sm.listings tokenId { getPL sm tokenId with active := false } } := by
  unfold purchase at h
  simp only [bind, Except.bind] at h
  cases h1 : purchasePhase1 s c tokenId v with
  | error e => rw [h1] at h; simp at h
  | ok s1 =>
    rw [h1] at h
    dsimp only at h
    cases hm : transferAsset s1 marketAddr (getPL s tokenId).seller c tokenId s.transferFee with
    | error e => rw [hm] at h; simp at h
    | ok sm =>
      rw [hm] at h
      dsimp only at h
      simp only [pure, Except.pure, Except.ok.injEq] at h
      obtain ⟨hv, hact, hpay, -⟩ := pphase1_ok h1
      exact ⟨hv, hact, hpay, s1, sm, rfl, hm, h.symm⟩

end P

namespace M

theorem frozen_all : ∀ (ops : List MOp) (s : MState) {id : Nat} {l : Listing},
    MInv s → aget s.listings id = some l → l.active = false →
    aget (runAll s ops).listings id = some l
  | [], _, _, _, _, hg, _ => hg
  | op :: rest, s, id, l, hInv, hg, hia => by
    unfold runAll
    rw [List.foldl_cons]
    exact frozen_all rest (run s op) (minv_run hInv op) (frozen_inactive hInv hg hia op) hia

end M

/-- C9: in every state reachable by a sequence of marketplace operations on
the two-token marketplace, a listing with `active = true` has a strictly
positive unit price and a strictly positive remaining quantity; since the
quantity update and deactivation happen inside the same transaction, no state
with `active = true` and `quantity = 0` is ever observable. -/
theorem C9_active_invariant (t : M.Tokens) (ops : List M.MOp) (id : Nat)
    (h : (M.getL (M.runAll (M.initM t) ops) id).active = true) :
    0 < (M.getL (M.runAll (M.initM t) ops) id).pricePerUnit ∧
      0 < (M.getL (M.runAll (M.initM t) ops) id).quantity := by
  have hInv := M.minv_runAll t ops
  have hmem := hInv.2 _ (mem_of_aget (M.aget_of_active h))
  exact hmem.2.2.2.1 h

/-- C9 witness: after the sample trace, listing 1 is active with price 2 and
quantity 10. -/
theorem C9_witness :
    0 < (M.getL (M.runAll (M.initM mtok) [.list1155 10 9 10 2, .list721 10 7 5]) 1).pricePerUnit ∧
      0 < (M.getL (M.runAll (M.initM mtok) [.list1155 10 9 10 2, .list721 10 7 5]) 1).quantity :=
  C9_active_invariant mtok [.list1155 10 9 10 2, .list721 10 7 5] 1 (by decide)

/-- C2 (amended): in the two-token marketplace a stored listing whose active
flag is false is frozen: any further sequence of operations leaves its record
(and in particular its false active flag) unchanged.  In the ERC-721-only
marketplace this fails: `list` re-activates a cancelled tokenId
(see the counterexample). -/
theorem C2_inactive_terminal (t : M.Tokens) (ops ops2 : List M.MOp) (id : Nat) (l : M.Listing)
    (hg : aget (M.runAll (M.initM t) ops).listings id = some l)
    (hia : l.active = false) :
    aget (M.runAll (M.runAll (M.initM t) ops) ops2).listings id = some l ∧
      (M.getL (M.runAll (M.runAll (M.initM t) ops) ops2) id).active = false := by
  have hfr := M.frozen_all ops2 (M.runAll (M.initM t) ops) (M.minv_runAll t ops) hg hia
  refine ⟨hfr, ?_⟩
  unfold M.getL
  rw [hfr]
  exact hia

/-- C2 witness: listing 2 of the sample trace, once cancelled, stays cancelled
across a further buy attempt on it. -/
theorem C2_witness :
    aget (M.runAll (M.runAll (M.initM mtok) [.list1155 10 9 10 2, .list721 10 7 5, .cancel 10 2])
        [.buy 11 2 1 9]).listings 2 =
      some { listingId := 2, seller := 10, tokenAddress := M.erc721Addr, tokenId := 7,
             quantity := 1, pricePerUnit := 5, isERC1155 := false, active := false } ∧
      (M.getL (M.runAll (M.runAll (M.initM mtok) [.list1155 10 9 10 2, .list721 10 7 5, .cancel 10 2])
        [.buy 11 2 1 9]) 2).active = false :=
  C2_inactive_terminal mtok [.list1155 10 9 10 2, .list721 10 7 5, .cancel 10 2] [.buy 11 2 1 9] 2
    _ (by decide) (by decide)

/-- C2 counterexample: in the ERC-721-only marketplace, token 5 is listed,
cancelled (active becomes false), and then listed again by its owner — and the
same listing key becomes active again, so false is not terminal there. -/
theorem C2_counterexample :
    (P.applyPOp pListed1 (.cancel 10 5)).isOk = true ∧
      (P.getPL pCancelled1 5).active = false ∧
      (P.applyPOp pCancelled1 (.list 10 5 100)).isOk = true ∧
      (P.getPL pRelisted1 5).active = true := by decide

/-- C3: a purchase violating a precondition — listing inactive, requested
quantity zero or above the remaining quantity, or payment below
price-times-quantity — reverts, and the committed state is exactly the
pre-state, in both marketplace variants. -/
theorem C3_precondition_rejection :
    (∀ (s : M.MState) (c id qty v : Nat),
      ((M.getL s id).active = false ∨ qty = 0 ∨ (M.getL s id).quantity < qty ∨
          v < (M.getL s id).pricePerUnit * qty) →
        (∃ e, M.buyItem s c id qty v = .error e) ∧ M.run s (.buy c id qty v) = s) ∧
    (∀ (s : P.PState) (c tokenId v : Nat),
      ((P.getPL s tokenId).active = false ∨ v < (P.getPL s tokenId).price) →
        (∃ e, P.purchase s c tokenId v = .error e) ∧ P.runOp s (.purchase c tokenId v) = s) := by
  constructor
  · intro s c id qty v hviol
    cases hr : M.buyItem s c id qty v with
    | error e =>
      exact ⟨⟨e, rfl⟩, M.run_of_error (show M.applyOp s (.buy c id qty v) = .error e from hr)⟩
    | ok s2 =>
      obtain ⟨-, -, hact, hq0, hqle, htot, -, -, -, -, -⟩ := M.buy_ok hr
      rcases hviol with h | h | h | h
      · rw [hact] at h
        exact absurd h (by simp)
      · omega
      · omega
      · omega
  · intro s c tokenId v hviol
    cases hr : P.purchase s c tokenId v with
    | error e =>
      exact ⟨⟨e, rfl⟩, by
        unfold P.runOp
        rw [show P.applyPOp s (.purchase c tokenId v) = .error e from hr]⟩
    | ok s2 =>
      obtain ⟨-, hact, hpay, -⟩ := P.ppurchase_ok hr
      rcases hviol with h | h
      · rw [hact] at h
        exact absurd h (by simp)
      · omega

/-- C3 witness: buying 11 units of the 6-unit remainder of sample listing 1 is
rejected and leaves the state unchanged; an underpaid purchase in the
ERC-721-only marketplace likewise. -/
theorem C3_witness :
    ((∃ e, M.buyItem msB 12 1 11 100 = .error e) ∧ M.run msB (.buy 12 1 11 100) = msB) ∧
      ((∃ e, P.purchase pListed1 12 5 99 = .error e) ∧
        P.runOp pListed1 (.purchase 12 5 99) = pListed1) :=
  ⟨C3_precondition_rejection.1 msB 12 1 11 100 (by decide),
   C3_precondition_rejection.2 pListed1 12 5 99 (by decide)⟩

/-- C4 (amended): in the two-token marketplace `buyItem` holds the
ReentrancyGuard lock at its external asset-transfer call, so a reentrant
`buyItem` issued there always reverts, and along any sequence of operations
the total quantity filled from a listing never exceeds its remaining quantity.
In the ERC-721-only marketplace, `purchase` neither finalizes the listing
state before its external calls nor holds any marketplace lock: at the
external call the listing is still recorded as active (see the
counterexample). -/
theorem C4_no_overfill :
    (∀ (s s1 : M.MState) (c id qty v : Nat), M.buyItemP1 s c id qty v = .ok s1 →
      s1.locked = true ∧ ∀ (c2 id2 q2 v2 : Nat), ∃ e, M.buyItem s1 c2 id2 q2 v2 = .error e) ∧
    (∀ (ops : List M.MOp) (s : M.MState) (id : Nat), id ≤ s.counter →
      M.fills s ops id ≤ (M.getL s id).quantity) ∧
    (∀ (s s1 : P.PState) (c tokenId v : Nat), P.purchasePhase1 s c tokenId v = .ok s1 →
      s1.listings = s.listings ∧ (P.getPL s1 tokenId).active = true) := by
  refine ⟨?_, M.fills_le, ?_⟩
  · intro s s1 c id qty v h
    obtain ⟨-, -, -, -, -, -, hs1⟩ := M.buyP1_ok h
    have hlk : s1.locked = true := by rw [hs1]
    refine ⟨hlk, ?_⟩
    intro c2 id2 q2 v2
    have hP1 : M.buyItemP1 s1 c2 id2 q2 v2 = .error "ReentrancyGuard" := by
      unfold M.buyItemP1
      rw [if_pos hlk]
    refine ⟨"ReentrancyGuard", ?_⟩
    unfold M.buyItem
    simp only [bind, Except.bind]
    rw [hP1]
  · intro s s1 c tokenId v h
    obtain ⟨hll, -, -, -, -, -, -, -⟩ := P.pphase1_listings h
    obtain ⟨-, hact, -, -⟩ := P.pphase1_ok h
    refine ⟨hll, ?_⟩
    unfold P.getPL
    rw [hll]
    exact hact

/-- C4 witness: the sample `buyItem` mid-state is locked, a reentrant buy there
reverts, the one-buy trace fills at most the listed quantity, and the sample
ERC-721-only purchase still sees the listing active at its external call. -/
theorem C4_witness :
    msMid.locked = true ∧ (∃ e, M.buyItem msMid 12 1 1 9 = .error e) ∧
      M.fills msA [.buy 11 1 4 9] 1 ≤ (M.getL msA 1).quantity ∧
      (P.getPL pMid1 5).active = true :=
  ⟨(C4_no_overfill.1 msA msMid 11 1 4 9 (by decide)).1,
   (C4_no_overfill.1 msA msMid 11 1 4 9 (by decide)).2 12 1 1 9,
   C4_no_overfill.2.1 [.buy 11 1 4 9] msA 1 (by decide),
   (C4_no_overfill.2.2 pListed1 pMid1 11 5 160 (by decide)).2⟩

/-- C4 counterexample: in the ERC-721-only marketplace the state visible at
the external transfer call of an in-flight `purchase` still has the listing
active, no lock is held, and a reentrant `purchase` passes every marketplace
check at that point — the claimed effects-first-or-lock discipline is absent. -/
theorem C4_counterexample :
    (P.purchasePhase1 pListed1 11 5 160).isOk = true ∧
      (P.getPL pMid1 5).active = true ∧
      (P.purchasePhase1 pMid1 12 5 160).isOk = true ∧
      pListed1.locked = false ∧ pMid1.locked = false := by decide

/-- C5 (amended): in the two-token marketplace, `getAllActiveListings` returns
exactly the stored listings with `active = true`, in strictly increasing
(creation) order of `listingId`, hence without duplicates.  In the
ERC-721-only marketplace the enumeration can return the same listing twice
after a cancel-and-relist (see the counterexample). -/
theorem C5_enumeration (s : M.MState) (hInv : M.MInv s) :
    (∀ l ∈ M.getAllActiveListings s, l.active = true ∧ aget s.listings l.listingId = some l) ∧
      (∀ (id : Nat) (l : M.Listing), aget s.listings id = some l → l.active = true →
        l ∈ M.getAllActiveListings s) ∧
      (M.getAllActiveListings s).Pairwise (fun a b => a.listingId < b.listingId) := by
  refine ⟨?_, ?_, M.gAAL_sorted hInv⟩
  · intro l hl
    obtain ⟨hg, ha⟩ := (M.gAAL_mem hInv).mp hl
    exact ⟨ha, hg⟩
  · intro id l hg ha
    have hid : l.listingId = id := (hInv.2 _ (mem_of_aget hg)).2.2.1
    exact (M.gAAL_mem hInv).mpr ⟨by rw [hid]; exact hg, ha⟩

/-- C5 witness: on the sample state the enumeration contains listing 1,
contains only active stored listings, and is strictly ordered. -/
theorem C5_witness :
    (∀ l ∈ M.getAllActiveListings msA, l.active = true ∧ aget msA.listings l.listingId = some l) ∧
      (∀ (id : Nat) (l : M.Listing), aget msA.listings id = some l → l.active = true →
        l ∈ M.getAllActiveListings msA) ∧
      (M.getAllActiveListings msA).Pairwise (fun a b => a.listingId < b.listingId) :=
  C5_enumeration msA (by decide)

/-- C5 counterexample: in the ERC-721-only marketplace, after list–cancel–list
on token 5 the `activeTokenIds` array holds the key twice, and
`getActiveListings` returns the same active listing twice — a duplicate,
refuting the no-duplicates enumeration claim for this variant. -/
theorem C5_counterexample :
    P.getActiveListings pRelisted1 =
      [{ seller := 10, tokenId := 5, price := 100, active := true },
       { seller := 10, tokenId := 5, price := 100, active := true }] ∧
      ¬ (P.getActiveListings pRelisted1).Nodup := by decide

namespace M

theorem record_evolve {s : MState} (hInv : MInv s) (op : MOp) {id : Nat} {l : Listing}
    (hg : aget s.listings id = some l) :
    s.counter ≤ (run s op).counter ∧
      ∃ l2, aget (run s op).listings id = some l2 ∧
        l2.listingId = l.listingId ∧ l2.seller = l.seller ∧
        l2.tokenAddress = l.tokenAddress ∧ l2.tokenId = l.tokenId ∧
        l2.pricePerUnit = l.pricePerUnit ∧ l2.isERC1155 = l.isERC1155 ∧
        l2.quantity ≤ l.quantity ∧ (l.active = false → l2 = l) := by
  have hle : id ≤ s.counter := (hInv.2 _ (mem_of_aget hg)).2.1
  have hgl : getL s id = l := by
    unfold getL
    rw [hg]
    rfl
  cases op with
  | list721 c tid price =>
    cases hr : applyOp s (.list721 c tid price) with
    | error e =>
      rw [run_of_error hr]
      exact ⟨le_refl _, l, hg, rfl, rfl, rfl, rfl, rfl, rfl, le_refl _, fun _ => rfl⟩
    | ok s2 =>
      rw [run_of_ok hr]
      obtain ⟨-, -, -, hs2⟩ := list721_ok hr
      rw [hs2]
      dsimp only
      rw [aget_aset, if_neg (by omega)]
      exact ⟨by omega, l, hg, rfl, rfl, rfl, rfl, rfl, rfl, le_refl _, fun _ => rfl⟩
  | list1155 c tid q ppu =>
    cases hr : applyOp s (.list1155 c tid q ppu) with
    | error e =>
      rw [run_of_error hr]
      exact ⟨le_refl _, l, hg, rfl, rfl, rfl, rfl, rfl, rfl, le_refl _, fun _ => rfl⟩
    | ok s2 =>
      rw [run_of_ok hr]
      obtain ⟨-, -, -, hs2⟩ := list1155_ok hr
      rw [hs2]
      dsimp only
      rw [aget_aset, if_neg (by omega)]
      exact ⟨by omega, l, hg, rfl, rfl, rfl, rfl, rfl, rfl, le_refl _, fun _ => rfl⟩
  | cancel c id2 =>
    cases hr : applyOp s (.cancel c id2) with
    | error e =>
      rw [run_of_error hr]
      exact ⟨le_refl _, l, hg, rfl, rfl, rfl, rfl, rfl, rfl, le_refl _, fun _ => rfl⟩
    | ok s2 =>
      rw [run_of_ok hr]
      obtain ⟨-, hact, hs2⟩ := cancel_ok hr
      rw [hs2]
      dsimp only
      rw [aget_aset]
      by_cases hii : id = id2
      · subst hii
        rw [if_pos rfl, hgl]
        refine ⟨le_refl _, { l with active := false }, rfl,
          rfl, rfl, rfl, rfl, rfl, rfl, le_refl _, ?_⟩
        intro hia
        rw [hgl] at hact
        rw [hact] at hia
        exact absurd hia (by simp)
      · rw [if_neg hii]
        exact ⟨le_refl _, l, hg, rfl, rfl, rfl, rfl, rfl, rfl, le_refl _, fun _ => rfl⟩
  | buy c id2 qty v =>
    cases hr : applyOp s (.buy c id2 qty v) with
    | error e =>
      rw [run_of_error hr]
      exact ⟨le_refl _, l, hg, rfl, rfl, rfl, rfl, rfl, rfl, le_refl _, fun _ => rfl⟩
    | ok s2 =>
      rw [run_of_ok hr]
      obtain ⟨-, -, hact, -, -, -, hc2, -, hls, -, -⟩ := buy_ok hr
      rw [hls, aget_aset]
      by_cases hii : id = id2
      · subst hii
        rw [if_pos rfl, hgl]
        refine ⟨by omega, soldL l qty, rfl, rfl, rfl, rfl, rfl, rfl, rfl,
          Nat.sub_le _ _, ?_⟩
        intro hia
        rw [hgl] at hact
        rw [hact] at hia
        exact absurd hia (by simp)
      · rw [if_neg hii]
        exact ⟨by omega, l, hg, rfl, rfl, rfl, rfl, rfl, rfl, le_refl _, fun _ => rfl⟩

end M

/-- C6 (amended): in the two-token marketplace, listing ids are assigned from
a strictly increasing counter at creation (every stored id is at most the
counter and the counter never decreases, so a new listing always gets a fresh
id), and a stored listing record is never deleted or overwritten: any later
operation preserves its identity, seller, asset reference, unit price and
kind, can only decrease its quantity, and leaves an inactive record entirely
untouched.  In the ERC-721-only marketplace records are keyed by tokenId and
`list` overwrites them (see the counterexample). -/
theorem C6_records_immutable (t : M.Tokens) (ops : List M.MOp) (op : M.MOp)
    (id : Nat) (l : M.Listing)
    (hg : aget (M.runAll (M.initM t) ops).listings id = some l) :
    (1 ≤ id ∧ id ≤ (M.runAll (M.initM t) ops).counter) ∧
      (M.runAll (M.initM t) ops).counter ≤ (M.run (M.runAll (M.initM t) ops) op).counter ∧
      ∃ l2, aget (M.run (M.runAll (M.initM t) ops) op).listings id = some l2 ∧
        l2.listingId = l.listingId ∧ l2.seller = l.seller ∧
        l2.tokenAddress = l.tokenAddress ∧ l2.tokenId = l.tokenId ∧
        l2.pricePerUnit = l.pricePerUnit ∧ l2.isERC1155 = l.isERC1155 ∧
        l2.quantity ≤ l.quantity ∧ (l.active = false → l2 = l) := by
  have hInv := M.minv_runAll t ops
  have hmem := hInv.2 _ (mem_of_aget hg)
  obtain ⟨hmono, hev⟩ := M.record_evolve hInv op hg
  exact ⟨⟨hmem.1, hmem.2.1⟩, hmono, hev⟩

/-- C6 witness: listing 1 of the sample trace keeps its identity and only
loses quantity across the sample buy. -/
theorem C6_witness :
    (1 ≤ 1 ∧ 1 ≤ (M.runAll (M.initM mtok) [.list1155 10 9 10 2, .list721 10 7 5]).counter) ∧
      (M.runAll (M.initM mtok) [.list1155 10 9 10 2, .list721 10 7 5]).counter ≤
        (M.run (M.runAll (M.initM mtok) [.list1155 10 9 10 2, .list721 10 7 5])
          (.buy 11 1 4 9)).counter ∧
      ∃ l2, aget (M.run (M.runAll (M.initM mtok) [.list1155 10 9 10 2, .list721 10 7 5])
          (.buy 11 1 4 9)).listings 1 = some l2 ∧
        l2.listingId = (M.getL msA 1).listingId ∧ l2.seller = (M.getL msA 1).seller ∧
        l2.tokenAddress = (M.getL msA 1).tokenAddress ∧ l2.tokenId = (M.getL msA 1).tokenId ∧
        l2.pricePerUnit = (M.getL msA 1).pricePerUnit ∧
        l2.isERC1155 = (M.getL msA 1).isERC1155 ∧
        l2.quantity ≤ (M.getL msA 1).quantity ∧ ((M.getL msA 1).active = false → l2 = M.getL msA 1) :=
  C6_records_immutable mtok [.list1155 10 9 10 2, .list721 10 7 5] (.buy 11 1 4 9) 1
    (M.getL msA 1) (by decide)

/-- C6 counterexample: in the ERC-721-only marketplace, cancelling token 5 and
listing it again at price 200 overwrites the stored record for the same key —
the cancelled record (price 100) is replaced, not preserved, and the key is
reused for the new sale. -/
theorem C6_counterexample :
    aget pCancelled1.listings 5 = some { seller := 10, tokenId := 5, price := 100, active := false } ∧
      (P.applyPOp pCancelled1 (.list 10 5 200)).isOk = true ∧
      aget pRelistedPr.listings 5 = some { seller := 10, tokenId := 5, price := 200, active := true } := by
  decide

/-- C8: in both variants, `cancel` succeeds exactly when the listing is stored
as active and the caller is its seller; on success it only clears the active
flag of that one listing — counters, balances, ownership and every other
listing are untouched, and no funds move; a cancel by anyone other than the
seller reverts and the committed state is unchanged. -/
theorem C8_cancel_auth :
    (∀ (s : M.MState) (c id : Nat),
      (∃ s2, M.cancelListing s c id = .ok s2) ↔
        ((M.getL s id).active = true ∧ (M.getL s id).seller = c)) ∧
    (∀ (s s2 : M.MState) (c id : Nat), M.cancelListing s c id = .ok s2 →
      s2.counter = s.counter ∧ s2.locked = s.locked ∧ s2.tok = s.tok ∧
      aget s2.listings id = some { M.getL s id with active := false } ∧
      ∀ j, j ≠ id → aget s2.listings j = aget s.listings j) ∧
    (∀ (s : M.MState) (c id : Nat), (M.getL s id).seller ≠ c →
      (∃ e, M.cancelListing s c id = .error e) ∧ M.run s (.cancel c id) = s) ∧
    (∀ (s : P.PState) (c tokenId : Nat),
      (∃ s2, P.cancel s c tokenId = .ok s2) ↔
        ((P.getPL s tokenId).active = true ∧ (P.getPL s tokenId).seller = c)) ∧
    (∀ (s s2 : P.PState) (c tokenId : Nat), P.cancel s c tokenId = .ok s2 →
      s2.eth = s.eth ∧ s2.owners = s.owners ∧ s2.activeTokenIds = s.activeTokenIds ∧
      aget s2.listings tokenId = some { P.getPL s tokenId with active := false } ∧
      ∀ j, j ≠ tokenId → aget s2.listings j = aget s.listings j) ∧
    (∀ (s : P.PState) (c tokenId : Nat), (P.getPL s tokenId).seller ≠ c →
      (∃ e, P.cancel s c tokenId = .error e) ∧ P.runOp s (.cancel c tokenId) = s) := by
  refine ⟨?_, ?_, ?_, ?_, ?_, ?_⟩
  · intro s c id
    constructor
    · rintro ⟨s2, h⟩
      obtain ⟨hs, ha, -⟩ := M.cancel_ok h
      exact ⟨ha, hs⟩
    · rintro ⟨ha, hs⟩
      exact ⟨_, M.cancel_succeeds hs ha⟩
  · intro s s2 c id h
    obtain ⟨-, -, hs2⟩ := M.cancel_ok h
    rw [hs2]
    refine ⟨rfl, rfl, rfl, ?_, ?_⟩
    · dsimp only
      rw [aget_aset, if_pos rfl]
    · intro j hj
      dsimp only
      rw [aget_aset, if_neg hj]
  · intro s c id hns
    cases hr : M.cancelListing s c id with
    | error e =>
      exact ⟨⟨e, rfl⟩, M.run_of_error (show M.applyOp s (.cancel c id) = .error e from hr)⟩
    | ok s2 =>
      obtain ⟨hs, -, -⟩ := M.cancel_ok hr
      exact absurd hs hns
  · intro s c tokenId
    constructor
    · rintro ⟨s2, h⟩
      obtain ⟨ha, hs, -⟩ := P.pcancel_ok h
      exact ⟨ha, hs⟩
    · rintro ⟨ha, hs⟩
      exact ⟨_, P.pcancel_succeeds ha hs⟩
  · intro s s2 c tokenId h
    obtain ⟨-, -, hs2⟩ := P.pcancel_ok h
    rw [hs2]
    refine ⟨rfl, rfl, rfl, ?_, ?_⟩
    · dsimp only
      rw [aget_aset, if_pos rfl]
    · intro j hj
      dsimp only
      rw [aget_aset, if_neg hj]
  · intro s c tokenId hns
    cases hr : P.cancel s c tokenId with
    | error e =>
      exact ⟨⟨e, rfl⟩, by
        unfold P.runOp
        rw [show P.applyPOp s (.cancel c tokenId) = .error e from hr]⟩
    | ok s2 =>
      obtain ⟨-, hs, -⟩ := P.pcancel_ok hr
      exact absurd hs hns

/-- C8 witness: alice can cancel sample listing 2; carol cannot, and her
attempt leaves the state unchanged; the same on the ERC-721-only listing. -/
theorem C8_witness :
    (∃ s2, M.cancelListing msA 10 2 = .ok s2) ∧
      ((∃ e, M.cancelListing msA 12 2 = .error e) ∧ M.run msA (.cancel 12 2) = msA) ∧
      (∃ s2, P.cancel pListed1 10 5 = .ok s2) ∧
      ((∃ e, P.cancel pListed1 12 5 = .error e) ∧ P.runOp pListed1 (.cancel 12 5) = pListed1) :=
  ⟨(C8_cancel_auth.1 msA 10 2).mpr (by decide),
   C8_cancel_auth.2.2.1 msA 12 2 (by decide),
   (C8_cancel_auth.2.2.2.1 pListed1 10 5).mpr (by decide),
   C8_cancel_auth.2.2.2.2.2 pListed1 12 5 (by decide)⟩

namespace M

theorem bget_ethAfterBuy_seller (e : List (Nat × Nat)) (buyer seller total v : Nat)
    (hbs : buyer ≠ seller) (hsm : seller ≠ marketAddr) :
    bget (ethAfterBuy e buyer seller total v) seller = bget e seller + total := by
  unfold ethAfterBuy
  split_ifs with hrf
  · simp [bget_ethT, hsm, Ne.symm hbs]
  · simp [bget_ethT, hsm, Ne.symm hbs]

theorem bget_ethAfterBuy_buyer (e : List (Nat × Nat)) (buyer seller total v : Nat)
    (hbs : buyer ≠ seller) (hbm : buyer ≠ marketAddr)
    (hv : v ≤ bget e buyer) (htv : total ≤ v) :
    bget e buyer = bget (ethAfterBuy e buyer seller total v) buyer + total := by
  unfold ethAfterBuy
  split_ifs with hrf
  · simp only [bget_ethT, if_pos rfl, if_neg hbm, if_neg hbs, if_neg (Ne.symm hbm),
      eq_self_iff_true, if_true]
    omega
  · simp only [bget_ethT, if_pos rfl, if_neg hbm, if_neg hbs, if_neg (Ne.symm hbm),
      eq_self_iff_true, if_true]
    omega

end M

/-- C1 (amended): for every successful `buyItem` in the two-token marketplace
with a buyer distinct from the seller, the seller's native-currency balance
grows by exactly `pricePerUnit * quantityToBuy`, the buyer's net outlay is
exactly that total (any excess attached payment is refunded in full), and the
buyer's holding of the asset grows by exactly `quantityToBuy` (ERC-1155
balance + qty; for ERC-721, quantity is 1 and sole ownership moves to the
buyer).  The ERC-721-only `purchase` does not satisfy this: the buyer
additionally pays the transfer fee and any payment beyond price + fee is kept
by the marketplace contract, not refunded (see the counterexample). -/
theorem C1_buyItem_conservation (s s2 : M.MState) (buyer id qty v : Nat)
    (hInv : M.MInv s)
    (h : M.buyItem s buyer id qty v = .ok s2)
    (hbs : buyer ≠ (M.getL s id).seller)
    (hbm : buyer ≠ M.marketAddr)
    (hsm : (M.getL s id).seller ≠ M.marketAddr) :
    bget s2.tok.eth (M.getL s id).seller
        = bget s.tok.eth (M.getL s id).seller + (M.getL s id).pricePerUnit * qty ∧
      bget s.tok.eth buyer = bget s2.tok.eth buyer + (M.getL s id).pricePerUnit * qty ∧
      ((M.getL s id).isERC1155 = true →
        M.bal1155Get s2.tok buyer (M.getL s id).tokenId
          = M.bal1155Get s.tok buyer (M.getL s id).tokenId + qty) ∧
      ((M.getL s id).isERC1155 = false →
        qty = 1 ∧ aget s.tok.owners721 (M.getL s id).tokenId = some (M.getL s id).seller ∧
          aget s2.tok.owners721 (M.getL s id).tokenId = some buyer) := by
  obtain ⟨-, hv, hact, hq0, hqle, htot, -, -, -, heth, s1, sm, h1, hm, hg1, hb1, ho1, hb2, ho2⟩ :=
    M.buy_ok h
  refine ⟨?_, ?_, ?_, ?_⟩
  · rw [heth]
    exact M.bget_ethAfterBuy_seller _ _ _ _ _ hbs hsm
  · rw [heth]
    exact M.bget_ethAfterBuy_buyer _ _ _ _ _ hbs hbm hv htot
  · intro hk
    have hk1 : (M.getL s1 id).isERC1155 = true := by rw [hg1]; exact hk
    have hbs1 : buyer ≠ (M.getL s1 id).seller := by rw [hg1]; exact hbs
    obtain ⟨-, hplus, -⟩ := M.mta_ok_1155 hk1 hbs1 hm
    rw [hg1] at hplus
    unfold M.bal1155Get at hplus ⊢
    rw [hb1] at hplus
    rw [← hb2] at hplus
    exact hplus
  · intro hk
    have hk1 : (M.getL s1 id).isERC1155 = false := by rw [hg1]; exact hk
    obtain ⟨hown, hown2⟩ := M.mta_ok_721 hk1 hm
    rw [hg1] at hown hown2
    rw [ho1] at hown
    rw [← ho2] at hown2
    have hmem := hInv.2 _ (mem_of_aget (M.aget_of_active hact))
    have h721 : (M.getL s id).quantity ≤ 1 := hmem.2.2.2.2 hk
    exact ⟨by omega, hown, hown2⟩

/-- C1 witness: bob buys 4 units of sample listing 1 for 2 wei each attaching
9 wei: alice gains exactly 8, bob spends exactly 8 net, bob's ERC-1155
balance grows by exactly 4. -/
theorem C1_witness :
    bget msB.tok.eth (M.getL msA 1).seller
        = bget msA.tok.eth (M.getL msA 1).seller + (M.getL msA 1).pricePerUnit * 4 ∧
      bget msA.tok.eth 11 = bget msB.tok.eth 11 + (M.getL msA 1).pricePerUnit * 4 ∧
      ((M.getL msA 1).isERC1155 = true →
        M.bal1155Get msB.tok 11 (M.getL msA 1).tokenId
          = M.bal1155Get msA.tok 11 (M.getL msA 1).tokenId + 4) ∧
      ((M.getL msA 1).isERC1155 = false →
        4 = 1 ∧ aget msA.tok.owners721 (M.getL msA 1).tokenId = some (M.getL msA 1).seller ∧
          aget msB.tok.owners721 (M.getL msA 1).tokenId = some 11) :=
  C1_buyItem_conservation msA msB 11 1 4 9 (by decide) (by decide) (by decide) (by decide)
    (by decide)

/-- C1 counterexample: in the ERC-721-only marketplace, bob buys token 5
(price 100, fee 10) attaching 160 wei.  The purchase succeeds, yet bob's net
outlay is 160, not the claimed 100 = pricePerUnit * quantity: the fee goes to
the platform owner and the 50 wei of overpayment stays in the marketplace
contract instead of being refunded. -/
theorem C1_counterexample :
    (P.applyPOp pListed1 (.purchase 11 5 160)).isOk = true ∧
      (P.getPL pListed1 5).price = 100 ∧ pListed1.transferFee = 10 ∧
      bget pListed1.eth 11 = 1000 ∧ bget pBought1.eth 11 = 840 ∧
      ¬ bget pBought1.eth 11 = 1000 - 100 ∧
      bget pBought1.eth P.marketAddr = 50 := by decide

namespace P

theorem bget_ethAfterTA_po (e : List (Nat × Nat)) (c po fee v : Nat)
    (hcp : c ≠ po) (hpt : po ≠ tokenAddr) :
    bget (ethAfterTA e c po fee v) po = bget e po + fee := by
  unfold ethAfterTA
  split_ifs with h1 h2 h3
  · simp only [bget_ethT, if_pos rfl, if_neg hpt, if_neg (Ne.symm hcp),
      eq_self_iff_true, if_true]
  · simp only [bget_ethT, if_neg hpt, if_neg (Ne.symm hcp)]
    omega
  · simp only [bget_ethT, if_pos rfl, if_neg hpt, if_neg (Ne.symm hcp),
      eq_self_iff_true, if_true]
  · simp only [bget_ethT, if_neg hpt, if_neg (Ne.symm hcp)]
    omega

theorem bget_ethAfterTA_caller (e : List (Nat × Nat)) (c po fee v : Nat)
    (hcp : c ≠ po) (hct : c ≠ tokenAddr)
    (hv : v ≤ bget e c) (hfv : fee ≤ v) :
    bget e c = bget (ethAfterTA e c po fee v) c + fee := by
  unfold ethAfterTA
  split_ifs with h1 h2 h3
  · simp only [bget_ethT, if_pos rfl, if_neg hct, if_neg hcp, eq_self_iff_true, if_true]
    omega
  · simp only [bget_ethT, if_pos rfl, if_neg hct, if_neg hcp, eq_self_iff_true, if_true]
    omega
  · simp only [bget_ethT, if_pos rfl, if_neg hct, if_neg hcp, eq_self_iff_true, if_true]
    omega
  · simp only [bget_ethT, if_pos rfl, if_neg hct, if_neg hcp, eq_self_iff_true, if_true]
    omega

theorem bget_ethAfterTA_token (e : List (Nat × Nat)) (c po fee v : Nat)
    (hct : c ≠ tokenAddr) (hpt : po ≠ tokenAddr) (hfv : fee ≤ v) :
    bget (ethAfterTA e c po fee v) tokenAddr = bget e tokenAddr := by
  unfold ethAfterTA
  split_ifs with h1 h2 h3
  · simp only [bget_ethT, if_pos rfl, if_neg (Ne.symm hct), if_neg (Ne.symm hpt),
      eq_self_iff_true, if_true]
    omega
  · simp only [bget_ethT, if_pos rfl, if_neg (Ne.symm hct), if_neg (Ne.symm hpt),
      eq_self_iff_true, if_true]
    omega
  · simp only [bget_ethT, if_pos rfl, if_neg (Ne.symm hct), if_neg (Ne.symm hpt),
      eq_self_iff_true, if_true]
    omega
  · simp only [bget_ethT, if_pos rfl, if_neg (Ne.symm hct), if_neg (Ne.symm hpt),
      eq_self_iff_true, if_true]
    omega

end P

/-- C7: a direct unique-asset transfer with attached fee payment succeeds only
if the token exists with `from` as its owner, the caller is the owner or an
approved operator, and the attached payment covers the current transfer fee;
on success ownership moves to `to`, the platform owner gains exactly the fee,
the caller's net outlay is exactly the fee (any excess is refunded), the token
contract keeps nothing, and a failing call leaves the committed state
unchanged. -/
theorem C7_transferAsset_correct (s s2 : P.PState) (c a b tokenId v : Nat)
    (h : P.transferAsset s c a b tokenId v = .ok s2)
    (hcp : c ≠ s.platformOwner) (hct : c ≠ P.tokenAddr) (hpt : s.platformOwner ≠ P.tokenAddr) :
    (aget s.owners tokenId = some a ∧
      (c = a ∨ P.getApprovedP s tokenId = c ∨ P.isOpP s a c = true) ∧ s.transferFee ≤ v) ∧
      aget s2.owners tokenId = some b ∧
      bget s2.eth s.platformOwner = bget s.eth s.platformOwner + s.transferFee ∧
      bget s.eth c = bget s2.eth c + s.transferFee ∧
      bget s2.eth P.tokenAddr = bget s.eth P.tokenAddr ∧
      (∀ (s3 : P.PState) (c2 a2 b2 t2 v2 : Nat) (e : String),
        P.transferAsset s3 c2 a2 b2 t2 v2 = .error e →
          P.runOp s3 (.transferDirect c2 a2 b2 t2 v2) = s3) := by
  obtain ⟨-, hv, hown, hauth, hfee, -, hs2⟩ := P.transferAsset_ok h
  refine ⟨⟨hown, hauth, hfee⟩, ?_, ?_, ?_, ?_, ?_⟩
  · rw [hs2]
    dsimp only
    rw [aget_aset, if_pos rfl]
  · rw [hs2]
    dsimp only
    exact P.bget_ethAfterTA_po _ _ _ _ _ hcp hpt
  · rw [hs2]
    dsimp only
    exact P.bget_ethAfterTA_caller _ _ _ _ _ hcp hct hv hfee
  · rw [hs2]
    dsimp only
    exact P.bget_ethAfterTA_token _ _ _ _ _ hct hpt hfee
  · intro s3 c2 a2 b2 t2 v2 e he
    unfold P.runOp
    rw [show P.applyPOp s3 (.transferDirect c2 a2 b2 t2 v2) = .error e from he]

/-- C7 witness: alice transfers token 5 to bob with fee 10 attaching 15 wei:
ownership moves to bob, the platform owner gains 10, alice's net outlay is 10
(5 refunded), the token contract keeps nothing. -/
theorem C7_witness :
    (aget psA.owners 5 = some 10 ∧
      (10 = 10 ∨ P.getApprovedP psA 5 = 10 ∨ P.isOpP psA 10 10 = true) ∧
        psA.transferFee ≤ 15) ∧
      aget pTA.owners 5 = some 11 ∧
      bget pTA.eth psA.platformOwner = bget psA.eth psA.platformOwner + psA.transferFee ∧
      bget psA.eth 10 = bget pTA.eth 10 + psA.transferFee ∧
      bget pTA.eth P.tokenAddr = bget psA.eth P.tokenAddr ∧
      (∀ (s3 : P.PState) (c2 a2 b2 t2 v2 : Nat) (e : String),
        P.transferAsset s3 c2 a2 b2 t2 v2 = .error e →
          P.runOp s3 (.transferDirect c2 a2 b2 t2 v2) = s3) :=
  C7_transferAsset_correct psA pTA 10 10 11 5 15 (by decide) (by decide) (by decide) (by decide)

/-- C10: in the ERC-721-only marketplace, a successful `purchase` requires the
attached payment to cover price plus the ERC-721 transfer fee; exactly the
price goes to the seller, exactly the fee to the platform owner, the buyer's
entire attached payment is spent, and anything above price + fee stays in the
marketplace contract rather than being refunded; ownership moves to the buyer
and the listing is deactivated. -/
theorem C10_purchase_fee_accounting (s s2 : P.PState) (c tokenId v : Nat)
    (h : P.purchase s c tokenId v = .ok s2)
    (hbs : c ≠ (P.getPL s tokenId).seller) (hbm : c ≠ P.marketAddr) (hbt : c ≠ P.tokenAddr)
    (hbp : c ≠ s.platformOwner)
    (hsm : (P.getPL s tokenId).seller ≠ P.marketAddr)
    (hst : (P.getPL s tokenId).seller ≠ P.tokenAddr)
    (hsp : (P.getPL s tokenId).seller ≠ s.platformOwner)
    (hpm : s.platformOwner ≠ P.marketAddr) (hpt : s.platformOwner ≠ P.tokenAddr) :
    (P.getPL s tokenId).price + s.transferFee ≤ v ∧
      bget s2.eth (P.getPL s tokenId).seller
        = bget s.eth (P.getPL s tokenId).seller + (P.getPL s tokenId).price ∧
      bget s2.eth s.platformOwner = bget s.eth s.platformOwner + s.transferFee ∧
      bget s2.eth P.marketAddr
        = bget s.eth P.marketAddr + (v - (P.getPL s tokenId).price - s.transferFee) ∧
      bget s.eth c = bget s2.eth c + v ∧
      aget s2.owners tokenId = some c ∧
      (P.getPL s2 tokenId).active = false := by
  obtain ⟨hv, hact, hpay, s1, sm, h1, hTA, hs2⟩ := P.ppurchase_ok h
  obtain ⟨-, -, -, hs1⟩ := P.pphase1_ok h1
  obtain ⟨-, -, -, -, -, -, hsm2⟩ := P.transferAsset_ok hTA
  have hmt : P.marketAddr ≠ P.tokenAddr := by decide
  have he2 : s2.eth = P.ethAfterTA
      (ethT (ethT s.eth c P.marketAddr v) P.marketAddr (P.getPL s tokenId).seller
        (P.getPL s tokenId).price)
      P.marketAddr s.platformOwner s.transferFee s.transferFee := by
    rw [hs2]
    dsimp only
    rw [hsm2]
    dsimp only
    rw [hs1]
  refine ⟨hpay, ?_, ?_, ?_, ?_, ?_, ?_⟩
  · rw [he2]
    unfold P.ethAfterTA
    simp only [Nat.sub_self, Nat.lt_irrefl, if_false]
    split_ifs with hfee <;>
      simp [bget_ethT, hbs, hbm, hbt, hbp, hsm, hst, hsp, hpm, hpt, hmt,
        Ne.symm hbs, Ne.symm hbm, Ne.symm hbt, Ne.symm hbp, Ne.symm hsm, Ne.symm hst,
        Ne.symm hsp, Ne.symm hpm, Ne.symm hpt, Ne.symm hmt] <;> omega
  · rw [he2]
    unfold P.ethAfterTA
    simp only [Nat.sub_self, Nat.lt_irrefl, if_false]
    split_ifs with hfee <;>
      simp [bget_ethT, hbs, hbm, hbt, hbp, hsm, hst, hsp, hpm, hpt, hmt,
        Ne.symm hbs, Ne.symm hbm, Ne.symm hbt, Ne.symm hbp, Ne.symm hsm, Ne.symm hst,
        Ne.symm hsp, Ne.symm hpm, Ne.symm hpt, Ne.symm hmt] <;> omega
  · rw [he2]
    unfold P.ethAfterTA
    simp only [Nat.sub_self, Nat.lt_irrefl, if_false]
    split_ifs with hfee <;>
      simp [bget_ethT, hbs, hbm, hbt, hbp, hsm, hst, hsp, hpm, hpt, hmt,
        Ne.symm hbs, Ne.symm hbm, Ne.symm hbt, Ne.symm hbp, Ne.symm hsm, Ne.symm hst,
        Ne.symm hsp, Ne.symm hpm, Ne.symm hpt, Ne.symm hmt] <;> omega
  · rw [he2]
    unfold P.ethAfterTA
    simp only [Nat.sub_self, Nat.lt_irrefl, if_false]
    split_ifs with hfee <;>
      simp [bget_ethT, hbs, hbm, hbt, hbp, hsm, hst, hsp, hpm, hpt, hmt,
        Ne.symm hbs, Ne.symm hbm, Ne.symm hbt, Ne.symm hbp, Ne.symm hsm, Ne.symm hst,
        Ne.symm hsp, Ne.symm hpm, Ne.symm hpt, Ne.symm hmt] <;> omega
  · rw [hs2]
    dsimp only
    rw [hsm2]
    dsimp only
    rw [hs1]
    dsimp only
    rw [aget_aset, if_pos rfl]
  · unfold P.getPL
    rw [hs2]
    dsimp only
    rw [aget_aset, if_pos rfl]
    rfl

/-- C10 witness: bob's purchase of token 5 (price 100, fee 10) with 160 wei
attached: alice +100, platform owner +10, marketplace keeps 50, bob spends
all 160, bob owns the token, listing inactive. -/
theorem C10_witness :
    (P.getPL pListed1 5).price + pListed1.transferFee ≤ 160 ∧
      bget pBought1.eth (P.getPL pListed1 5).seller
        = bget pListed1.eth (P.getPL pListed1 5).seller + (P.getPL pListed1 5).price ∧
      bget pBought1.eth pListed1.platformOwner
        = bget pListed1.eth pListed1.platformOwner + pListed1.transferFee ∧
      bget pBought1.eth P.marketAddr
        = bget pListed1.eth P.marketAddr + (160 - (P.getPL pListed1 5).price - pListed1.transferFee) ∧
      bget pListed1.eth 11 = bget pBought1.eth 11 + 160 ∧
      aget pBought1.owners 5 = some 11 ∧
      (P.getPL pBought1 5).active = false :=
  C10_purchase_fee_accounting pListed1 pBought1 11 5 160 (by decide) (by decide) (by decide)
    (by decide) (by decide) (by decide) (by decide) (by decide) (by decide) (by decide)

